import Mathlib

/-!
Verification of the `codex-status` log-parsing and field-rendering pipeline
(`src/codex-status.js`).  JavaScript strings are modelled as Lean `String`
(lists of Unicode scalar values); machine numbers are modelled as `Int`/`Rat`
with explicit handling of the finiteness checks the code performs; absent or
`null`/`undefined` JSON fields are modelled as `Option`.
-/

namespace CodexStatus

/-! ## JavaScript string primitives -/

/-- JS `String.prototype.trim` on a character list: drop leading and trailing
whitespace characters. -/
def trimChars (l : List Char) : List Char :=
  (l.dropWhile Char.isWhitespace).reverse.dropWhile Char.isWhitespace |>.reverse

/-- JS `s.trim()`. -/
def jsTrim (s : String) : String := ⟨trimChars s.data⟩

/-- JS `s.toLowerCase()` (ASCII case mapping, which covers every string the
code compares case-insensitively). -/
def jsToLower (s : String) : String := ⟨s.data.map Char.toLower⟩

/-- Prefix test on character lists (JS `startsWith`). -/
def charsPrefix : List Char → List Char → Bool
  | [], _ => true
  | _ :: _, [] => false
  | p :: ps, c :: cs => p = c && charsPrefix ps cs

/-- JS `s.startsWith(pre)`. -/
def jsStartsWith (s pre : String) : Bool := charsPrefix pre.data s.data

/-- Substring containment on character lists (JS `includes`). -/
def charsContains (l pat : List Char) : Bool :=
  match l with
  | [] => charsPrefix pat []
  | _ :: rest => charsPrefix pat l || charsContains rest pat

/-- JS `s.includes(pat)`. -/
def jsIncludes (s pat : String) : Bool := charsContains s.data pat.data

/-- Split a character list on a separator character, keeping empty segments
(JS `String.prototype.split` with a one-character separator). -/
def splitCharsAux (sep : Char) : List Char → List Char → List (List Char)
  | [], acc => [acc.reverse]
  | c :: rest, acc =>
    if c = sep then acc.reverse :: splitCharsAux sep rest []
    else splitCharsAux sep rest (c :: acc)

/-- JS `s.split(sep)`. -/
def jsSplit (s : String) (sep : Char) : List String :=
  (splitCharsAux sep s.data []).map (fun l => ⟨l⟩)

/-- JS `arr.join(sep)` on strings. -/
def jsJoin (l : List String) (sep : String) : String :=
  match l with
  | [] => ""
  | s :: rest => rest.foldl (fun acc t => acc ++ sep ++ t) s

/-- JS `s.replace(/\s+/g, '')`: remove every whitespace character. -/
def removeWhitespace (s : String) : String := ⟨s.data.filter (fun c => !c.isWhitespace)⟩

/-- The decimal digit character for `d % 10`. -/
def digitChar (d : ℕ) : Char :=
  match d % 10 with
  | 0 => '0'
  | 1 => '1'
  | 2 => '2'
  | 3 => '3'
  | 4 => '4'
  | 5 => '5'
  | 6 => '6'
  | 7 => '7'
  | 8 => '8'
  | _ => '9'

/-- Decimal digits of a natural number, most significant first
(fuel-driven; `fuel = n + 1` always suffices). -/
def natDigitsAux : ℕ → ℕ → List Char → List Char
  | 0, _, acc => acc
  | fuel + 1, n, acc =>
    let acc' := digitChar (n % 10) :: acc
    if n < 10 then acc' else natDigitsAux fuel (n / 10) acc'

/-- Decimal string of a natural number (JS number-to-string on integers). -/
def natToStr (n : ℕ) : String := ⟨natDigitsAux (n + 1) n []⟩

/-- Decimal string of an integer (JS template-literal stringification). -/
def intToStr (n : ℤ) : String :=
  if n < 0 then "-" ++ natToStr n.natAbs else natToStr n.natAbs

/-! ## Width Truncator (`codePointWidth`, `truncateToTerminal`) -/

/-- Embeds `isFullWidthCodePoint`: East-Asian wide / full-width ranges. -/
def isFullWidthCodePoint (cp : ℕ) : Bool :=
  0x1100 ≤ cp &&
    (cp ≤ 0x115f || cp = 0x2329 || cp = 0x232a
      || (0x2e80 ≤ cp && cp ≤ 0x303e)
      || (0x3040 ≤ cp && cp ≤ 0xa4cf)
      || (0xac00 ≤ cp && cp ≤ 0xd7a3)
      || (0xf900 ≤ cp && cp ≤ 0xfaff)
      || (0xfe10 ≤ cp && cp ≤ 0xfe19)
      || (0xfe30 ≤ cp && cp ≤ 0xfe6f)
      || (0xff00 ≤ cp && cp ≤ 0xff60)
      || (0xffe0 ≤ cp && cp ≤ 0xffe6)
      || (0x1f300 ≤ cp && cp ≤ 0x1f64f)
      || (0x1f900 ≤ cp && cp ≤ 0x1f9ff)
      || (0x1fa70 ≤ cp && cp ≤ 0x1faff)
      || (0x20000 ≤ cp && cp ≤ 0x3fffd))

/-- Models the regex `/\p{Mark}/u` membership test.  The full Unicode `Mark`
table is external data owned by the regex engine; the principal combining-mark
blocks are listed here (they include every mark the program's inputs use). -/
def isMarkCodePoint (cp : ℕ) : Bool :=
  (0x0300 ≤ cp && cp ≤ 0x036f)
    || (0x1dc0 ≤ cp && cp ≤ 0x1de6)
    || (0x20d0 ≤ cp && cp ≤ 0x20dc)
    || (0xfe20 ≤ cp && cp ≤ 0xfe2d)

/-- Models the regex `/\p{Extended_Pictographic}/u` membership test, listing
the principal pictographic ranges (again external Unicode data). -/
def isExtendedPictographic (cp : ℕ) : Bool :=
  (0x2600 ≤ cp && cp ≤ 0x27bf)
    || (0x1f000 ≤ cp && cp ≤ 0x1f0ff)
    || (0x1f300 ≤ cp && cp ≤ 0x1f5ff)
    || (0x1f600 ≤ cp && cp ≤ 0x1f64f)
    || (0x1f680 ≤ cp && cp ≤ 0x1f6ff)
    || (0x1f900 ≤ cp && cp ≤ 0x1f9ff)
    || (0x1fa70 ≤ cp && cp ≤ 0x1faff)
    || cp = 0x203c || cp = 0x2049

/-- Embeds `codePointWidth`: display width 0, 1, or 2 of one code point. -/
def codePointWidth (cp : ℕ) : ℕ :=
  if cp = 0 then 0
  else if cp ≤ 0x1f || (0x7f ≤ cp && cp ≤ 0x9f) then 0
  else if cp = 0x200d then 0
  else if 0xfe00 ≤ cp && cp ≤ 0xfe0f then 0
  else if isMarkCodePoint cp then 0
  else if isExtendedPictographic cp then 2
  else if isFullWidthCodePoint cp then 2
  else 1

/-- Width of one character. -/
def charWidth (c : Char) : ℕ := codePointWidth c.toNat

/-- Sum of per-code-point display widths of a string's characters. -/
def displayWidth (l : List Char) : ℕ := (l.map charWidth).sum

/-- The code-point walk of `truncateToTerminal`: keep accumulating characters
while the running width stays within the budget; `break` on the first
character that would exceed it. -/
def truncAux (cols : ℤ) : List Char → ℤ → List Char
  | [], _ => []
  | c :: rest, width =>
    if width + (charWidth c : ℤ) > cols then []
    else c :: truncAux cols rest (width + (charWidth c : ℤ))

/-- Embeds `truncateToTerminal(text, columns)`.  `columns` is `none` when the
caller has no integer column count; `!columns || columns <= 0` disables
truncation (a zero budget is falsy and is also `≤ 0`). -/
def truncateToTerminal (text : String) (columns : Option ℤ) : String :=
  match columns with
  | none => text
  | some c => if c ≤ 0 then text else ⟨truncAux c text.data 0⟩

/-! Helper lemmas about the truncation walk. -/

theorem truncAux_prefix (cols : ℤ) : ∀ (l : List Char) (w : ℤ),
    ∃ rest, l = truncAux cols l w ++ rest := by
  intro l
  induction l with
  | nil => intro w; exact ⟨[], rfl⟩
  | cons c tail ih =>
    intro w
    unfold truncAux
    by_cases h : w + (charWidth c : ℤ) > cols
    · exact ⟨c :: tail, by simp [h]⟩
    · obtain ⟨rest, hrest⟩ := ih (w + (charWidth c : ℤ))
      refine ⟨rest, ?_⟩
      simp only [h, if_false]
      simpa using congrArg (c :: ·) hrest

theorem truncAux_width_le (cols : ℤ) : ∀ (l : List Char) (w : ℤ), w ≤ cols →
    w + (displayWidth (truncAux cols l w) : ℤ) ≤ cols := by
  intro l
  induction l with
  | nil => intro w hw; simpa [truncAux, displayWidth] using hw
  | cons c tail ih =>
    intro w hw
    unfold truncAux
    by_cases h : w + (charWidth c : ℤ) > cols
    · simpa [h, displayWidth] using hw
    · have := ih (w + (charWidth c : ℤ)) (by omega)
      simp only [h, if_false]
      simp only [displayWidth, List.map_cons, List.sum_cons] at *
      push_cast at *
      omega

theorem truncAux_nil (cols : ℤ) (w : ℤ) : truncAux cols [] w = [] := rfl

theorem truncAux_cons (cols : ℤ) (c : Char) (l : List Char) (w : ℤ) :
    truncAux cols (c :: l) w =
      if w + (charWidth c : ℤ) > cols then []
      else c :: truncAux cols l (w + (charWidth c : ℤ)) := rfl

theorem truncAux_idem (cols : ℤ) : ∀ (l : List Char) (w : ℤ),
    truncAux cols (truncAux cols l w) w = truncAux cols l w := by
  intro l
  induction l with
  | nil => intro w; simp [truncAux_nil]
  | cons c tail ih =>
    intro w
    rw [truncAux_cons]
    by_cases h : w + (charWidth c : ℤ) > cols
    · simp [h, truncAux_nil]
    · simp only [h, if_false]
      rw [truncAux_cons]
      simp only [h, if_false]
      rw [ih]

/-- The character on which the truncation walk stops always has positive
width: a zero-width code point never starts the dropped suffix. -/
theorem truncAux_stop_pos (cols : ℤ) : ∀ (l : List Char) (w : ℤ), w ≤ cols →
    ∀ d rest, l = truncAux cols l w ++ (d :: rest) → 0 < charWidth d := by
  intro l
  induction l with
  | nil => intro w _ d rest h; simp [truncAux] at h
  | cons c tail ih =>
    intro w hw d rest h
    unfold truncAux at h
    by_cases hc : w + (charWidth c : ℤ) > cols
    · simp only [hc, if_true, List.nil_append, List.cons.injEq] at h
      obtain ⟨rfl, _⟩ := h
      omega
    · simp only [hc, if_false, List.cons_append, List.cons.injEq] at h
      exact ih (w + (charWidth c : ℤ)) (by omega) d rest h.2

/-- C7: `truncateToTerminal` never separates a zero-width code point from the
visible code point preceding it: the output is always a prefix of the input
and the first dropped code point (if any) has positive display width, so a
zero-width code point following an included code point is itself included.
Concretely, `truncateToTerminal "A\u0301BC" 2` yields `"A\u0301B"`, whose
first cluster is "Á" (A plus combining acute). -/
theorem truncate_never_splits_cluster :
    (∀ (text : String) (c : ℤ), 0 < c →
      (∃ rest, text.data = (truncateToTerminal text (some c)).data ++ rest) ∧
      (∀ d rest, text.data = (truncateToTerminal text (some c)).data ++ (d :: rest) →
        0 < charWidth d)) ∧
    truncateToTerminal "A\u0301BC" (some 2) = "A\u0301B" := by
  constructor
  · intro text c hc
    have hne : ¬ c ≤ 0 := by omega
    constructor
    · simpa [truncateToTerminal, hne] using truncAux_prefix c text.data 0
    · intro d rest h
      exact truncAux_stop_pos c text.data 0 (by omega) d rest
        (by simpa [truncateToTerminal, hne] using h)
  · decide

/-- Witness for C7: the general clause applied at the concrete input
`"A\u0301BC"` with budget 2, where the dropped character is `'C'`. -/
theorem truncate_never_splits_cluster_witness :
    (0 : ℤ) < 2 ∧
      (∀ d rest, ("A\u0301BC" : String).data =
          (truncateToTerminal "A\u0301BC" (some 2)).data ++ (d :: rest) →
        0 < charWidth d) :=
  ⟨by norm_num, (truncate_never_splits_cluster.1 "A\u0301BC" 2 (by norm_num)).2⟩

/-- C8: width truncation is idempotent (truncating an already-truncated line
to the same budget returns it unchanged), the output's computed display width
(sum of per-code-point widths) is at most a positive budget, and a missing or
non-positive budget returns the input unchanged. -/
theorem truncate_idempotent_bounded :
    (∀ (text : String) (cols : Option ℤ),
      truncateToTerminal (truncateToTerminal text cols) cols =
        truncateToTerminal text cols) ∧
    (∀ (text : String) (c : ℤ), 0 < c →
      (displayWidth (truncateToTerminal text (some c)).data : ℤ) ≤ c) ∧
    (∀ text : String, truncateToTerminal text none = text) ∧
    (∀ (text : String) (c : ℤ), c ≤ 0 → truncateToTerminal text (some c) = text) := by
  refine ⟨?_, ?_, fun _ => rfl, ?_⟩
  · intro text cols
    match cols with
    | none => rfl
    | some c =>
      by_cases hc : c ≤ 0
      · simp [truncateToTerminal, hc]
      · simp only [truncateToTerminal, hc, if_false]
        exact congrArg String.mk (truncAux_idem c text.data 0)
  · intro text c hc
    have hne : ¬ c ≤ 0 := by omega
    have := truncAux_width_le c text.data 0 (by omega)
    simpa [truncateToTerminal, hne] using this
  · intro text c hc
    simp [truncateToTerminal, hc]

/-- Witness for C8: the width-bound clause at a concrete input. -/
theorem truncate_idempotent_bounded_witness :
    (0 : ℤ) < 3 ∧ (displayWidth (truncateToTerminal "hello" (some 3)).data : ℤ) ≤ 3 :=
  ⟨by norm_num, truncate_idempotent_bounded.2.1 "hello" 3 (by norm_num)⟩

/-! ## Path and model-name trimming (`trimPath`, `stripModelPrefix`) -/

/-- Embeds `trimPath(p)`.  The user's home directory (`os.homedir()`) and the
platform path separator (`path.sep`, here `'/'`) are environment inputs; the
home directory is passed explicitly. -/
def trimPath (home p : String) : String :=
  if p = "" then ""
  else
    let r1 : String := if jsStartsWith p home then ⟨p.data.drop home.data.length⟩ else p
    let r2 : String := if jsStartsWith r1 "/" then ⟨r1.data.drop 1⟩ else r1
    let parts := jsSplit r2 '/'
    let r3 := if parts.length > 1 ∧ parts.headD "" = "dev"
      then jsJoin (parts.drop 1) "/" else r2
    if r3 = "" then "." else r3

/-- Embeds `stripModelPrefix(model)` on string models. -/
def stripModelPrefix (model : String) : String :=
  if jsStartsWith model "gpt-" then ⟨model.data.drop 4⟩ else model

/-! ## Duration / age formatting (`formatDuration`, `formatAgoShort`) -/

/-- The unit table of `formatDuration`. -/
def DURATION_UNITS : List (String × ℕ) := [("d", 86400), ("h", 3600), ("m", 60), ("s", 1)]

/-- The unit loop of `formatDuration`: skip leading units larger than the
remainder, then emit `count ++ label` per unit, stopping once `maxUnits`
parts have been emitted. -/
def durationLoop (maxUnits : ℕ) : List (String × ℕ) → ℕ → List String → List String
  | [], _, parts => parts
  | (label, value) :: units, remaining, parts =>
    if value > remaining ∧ parts = [] then durationLoop maxUnits units remaining parts
    else
      let count := remaining / value
      let parts' := if count > 0 ∨ parts ≠ [] then parts ++ [natToStr count ++ label] else parts
      let remaining' := if count > 0 ∨ parts ≠ [] then remaining - count * value else remaining
      if maxUnits ≤ parts'.length then parts'
      else durationLoop maxUnits units remaining' parts'

/-- Embeds `formatDuration(seconds, maxUnits)`.  `none` models the
`seconds == null` / `NaN` guard. -/
def formatDuration (seconds : Option ℤ) (maxUnits : ℕ := 2) : String :=
  match seconds with
  | none => "unknown"
  | some s =>
    let parts := durationLoop maxUnits DURATION_UNITS (max 0 s).toNat []
    if parts = [] then "0s" else jsJoin parts " "

/-- Embeds `formatAgoShort(date)` with the clock (`Date.now()`) and the date's
epoch milliseconds passed explicitly (the callers always pass a valid
modification time, so the `!date` / `NaN` guards are not reachable here). -/
def formatAgoShort (nowMs mtimeMs : ℤ) : String :=
  let diffSeconds := (nowMs - mtimeMs).fdiv 1000
  if diffSeconds < 5 then "now"
  else removeWhitespace (formatDuration (some diffSeconds) 1)

/-! ## Compact token-count formatting (`formatCompact`) -/

/-- One scaled magnitude of the compact formatter: value over `unit` with at
most one fraction digit (half-up), the trailing `.0` dropped, and the scale
suffix appended. -/
def compactScaled (m unit : ℕ) (suffix : String) : String :=
  let tenths := (m * 10 + unit / 2) / unit
  let ip := tenths / 10
  let fp := tenths % 10
  if fp = 0 then natToStr ip ++ suffix else natToStr ip ++ "." ++ natToStr fp ++ suffix

/-- Compact notation of a natural number magnitude with `en-US` suffixes. -/
def compactNat (m : ℕ) : String :=
  if m < 1000 then natToStr m
  else if m < 1000000 then compactScaled m 1000 "K"
  else if m < 1000000000 then compactScaled m 1000000 "M"
  else if m < 1000000000000 then compactScaled m 1000000000 "B"
  else compactScaled m 1000000000000 "T"

/-- Models `compactFormatter.format` (`Intl.NumberFormat('en-US', {notation:
'compact', maximumFractionDigits: 1})`) on integer token counts. -/
def jsCompact (n : ℤ) : String :=
  if n < 0 then "-" ++ compactNat n.natAbs else compactNat n.natAbs

/-- Embeds `formatCompact(value)`: `none` models a non-number argument. -/
def formatCompact : Option ℤ → String
  | some n => jsCompact n
  | none => "n/a"

theorem digitChar_ne_slash (d : ℕ) : digitChar d ≠ '/' := by
  unfold digitChar
  split <;> decide

theorem natDigitsAux_ne_slash : ∀ (fuel n : ℕ) (acc : List Char),
    (∀ c ∈ acc, c ≠ '/') → ∀ c ∈ natDigitsAux fuel n acc, c ≠ '/' := by
  intro fuel
  induction fuel with
  | zero => intro n acc hacc c hc; exact hacc c hc
  | succ fuel ih =>
    intro n acc hacc c hc
    unfold natDigitsAux at hc
    have hacc' : ∀ c ∈ digitChar (n % 10) :: acc, c ≠ '/' := by
      intro c hc
      rcases List.mem_cons.mp hc with h | h
      · subst h; exact digitChar_ne_slash _
      · exact hacc c h
    by_cases hn : n < 10
    · simp only [hn, if_true] at hc
      exact hacc' c hc
    · simp only [hn, if_false] at hc
      exact ih (n / 10) _ hacc' c hc

theorem natToStr_ne_slash (n : ℕ) : ∀ c ∈ (natToStr n).data, c ≠ '/' := by
  intro c hc
  exact natDigitsAux_ne_slash (n + 1) n [] (by intro c hc; cases hc) c hc

theorem data_append (a b : String) : (a ++ b).data = a.data ++ b.data := by
  cases a; cases b; rfl

theorem compactScaled_ne_slash (m unit : ℕ) (suffix : String)
    (hs : ∀ c ∈ suffix.data, c ≠ '/') :
    ∀ c ∈ (compactScaled m unit suffix).data, c ≠ '/' := by
  intro c hc
  simp only [compactScaled] at hc
  split at hc
  · rw [data_append, List.mem_append] at hc
    rcases hc with hc | hc
    · exact natToStr_ne_slash _ c hc
    · exact hs c hc
  · rw [data_append, data_append, data_append, List.mem_append, List.mem_append,
      List.mem_append] at hc
    rcases hc with ((hc | hc) | hc) | hc
    · exact natToStr_ne_slash _ c hc
    · have : c = '.' := by simpa using hc
      subst this; decide
    · exact natToStr_ne_slash _ c hc
    · exact hs c hc

theorem jsCompact_ne_slash (n : ℤ) : ∀ c ∈ (jsCompact n).data, c ≠ '/' := by
  intro c hc
  have hbody : ∀ m : ℕ, ∀ c ∈ (compactNat m).data, c ≠ '/' := by
    intro m c hc
    unfold compactNat at hc
    split at hc
    · exact natToStr_ne_slash _ c hc
    · split at hc
      · exact compactScaled_ne_slash _ _ "K" (by decide) c hc
      · split at hc
        · exact compactScaled_ne_slash _ _ "M" (by decide) c hc
        · split at hc
          · exact compactScaled_ne_slash _ _ "B" (by decide) c hc
          · exact compactScaled_ne_slash _ _ "T" (by decide) c hc
  unfold jsCompact at hc
  split at hc
  · rw [data_append, List.mem_append] at hc
    rcases hc with hc | hc
    · have : c = '-' := by simpa using hc
      subst this; decide
    · exact hbody _ c hc
  · exact hbody _ c hc

/-- The compact formatter never produces the literal `"n/a"`. -/
theorem jsCompact_ne_na (n : ℤ) : jsCompact n ≠ "n/a" := by
  intro h
  have : '/' ∈ (jsCompact n).data := by rw [h]; decide
  exact jsCompact_ne_slash n '/' this rfl

/-! ## Rate-limit windows (`parseTimestampMs`, `resolveResetSeconds`,
`formatResetTarget`, `formatRateWindow`) -/

/-- A JSON value sitting in a numeric position of a rate-limit window: a
finite number, a non-finite number (`NaN`/`±Infinity`), or a string. -/
inductive JSNum where
  | num (q : ℚ)
  | nan
  | str (s : String)
deriving DecidableEq

/-- Digit test and value. -/
def digitsToNat (l : List Char) : ℕ :=
  l.foldl (fun acc c => acc * 10 + (c.toNat - 48)) 0

/-- Models JS `Number(s)` on already-trimmed decimal literals (optional sign,
digits, optional fraction).  Strings `Number` maps to `NaN` yield `none`;
hexadecimal and exponent notation are not modelled (no log field uses them). -/
def jsParseNumber (s : String) : Option ℚ :=
  let (sign, l) : ℚ × List Char :=
    match s.data with
    | '-' :: rest => (-1, rest)
    | '+' :: rest => (1, rest)
    | l => (1, l)
  match splitCharsAux '.' l [] with
  | [ip] =>
    if ip ≠ [] ∧ ip.all Char.isDigit then some (sign * digitsToNat ip) else none
  | [ip, fp] =>
    if (ip ≠ [] ∨ fp ≠ []) ∧ ip.all Char.isDigit ∧ fp.all Char.isDigit then
      some (sign * (digitsToNat ip + (digitsToNat fp : ℚ) / (10 ^ fp.length : ℕ)))
    else none
  | _ => none

/-- Models `Date.parse` on strings `Number` could not parse.  Date-format
strings in reset fields are not modelled (treated as unparseable); no claim
depends on them. -/
def jsDateParse (_ : String) : Option ℚ := none

/-- Embeds `parseTimestampMs(value)`: numbers above `1e12` are taken as
milliseconds, smaller ones as seconds; numeric strings likewise; other
strings fall back to `Date.parse`. -/
def parseTimestampMs (v : JSNum) : Option ℚ :=
  match v with
  | .num q => some (if q > (10 : ℚ) ^ 12 then q else q * 1000)
  | .nan => none
  | .str s =>
    let trimmed := jsTrim s
    if trimmed = "" then none
    else
      match jsParseNumber trimmed with
      | some q => some (if q > (10 : ℚ) ^ 12 then q else q * 1000)
      | none => jsDateParse trimmed

/-- A named rate-limit window as the code reads it: a usage percentage plus a
reset countdown (`resets_in_seconds`) or one of four absolute reset keys. -/
structure RateWindow where
  used_percent : Option ℤ := none
  resets_in_seconds : Option JSNum := none
  resets_at : Option JSNum := none
  reset_at : Option JSNum := none
  resetsAt : Option JSNum := none
  resetAt : Option JSNum := none
deriving DecidableEq

/-- Truncation toward zero of a rational (JS `ToInteger` on a time value). -/
def ratTrunc (q : ℚ) : ℤ := q.num / (q.den : ℤ)

/-- One absolute-reset candidate key of `resolveResetSeconds`: absent keys
and unparseable values are skipped (`continue`). -/
def tryResetKey (v : Option JSNum) (nowMs : ℤ) : Option ℚ :=
  match v with
  | none => none
  | some val =>
    match parseTimestampMs val with
    | none => none
    | some ms => some ((⌊(ms - (nowMs : ℚ)) / 1000⌋ : ℤ) : ℚ)

/-- Embeds `resolveResetSeconds(windowData, now)`: prefer a finite
`resets_in_seconds` (number, or numeric string), else scan the four absolute
reset keys in order. -/
def resolveResetSeconds (w : Option RateWindow) (nowMs : ℤ) : Option ℚ :=
  match w with
  | none => none
  | some wd =>
    let fromCandidates :=
      (tryResetKey wd.resets_at nowMs).orElse fun _ =>
        (tryResetKey wd.reset_at nowMs).orElse fun _ =>
          (tryResetKey wd.resetsAt nowMs).orElse fun _ =>
            tryResetKey wd.resetAt nowMs
    match wd.resets_in_seconds with
    | some (.num q) => some q
    | some (.str s) =>
      let trimmed := jsTrim s
      if trimmed ≠ "" then
        match jsParseNumber trimmed with
        | some q => some q
        | none => fromCandidates
      else fromCandidates
    | _ => fromCandidates

/-- A civil timestamp (proleptic Gregorian), month and day 1-based. -/
structure CivilTime where
  year : ℤ
  month : ℕ
  day : ℕ
  hour : ℕ
  minute : ℕ
deriving DecidableEq

/-- Civil time of an epoch-millisecond value.  The code formats in the
process's local timezone (`Date#getHours` etc.); the timezone offset is
modelled as zero (UTC). -/
def msToCivil (ms : ℤ) : CivilTime :=
  let days := ms.fdiv 86400000
  let msod := (ms.emod 86400000).toNat
  let z := days + 719468
  let era := z.fdiv 146097
  let doe := (z.emod 146097).toNat
  let yoe := (doe - doe / 1460 + doe / 36524 - doe / 146096) / 365
  let doy := doe - (365 * yoe + yoe / 4 - yoe / 100)
  let mp := (5 * doy + 2) / 153
  let d := doy - (153 * mp + 2) / 5 + 1
  let m := if mp < 10 then mp + 3 else mp - 9
  let y := (yoe : ℤ) + era * 400 + (if m ≤ 2 then 1 else 0)
  ⟨y, m, d, msod / 3600000, msod % 3600000 / 60000⟩

/-- JS `String(n).padStart(2, '0')` on small naturals. -/
def pad2 (n : ℕ) : String :=
  if n < 10 then "0" ++ natToStr n else natToStr n

/-- Embeds `formatResetTarget(seconds, now)`: `none` models a non-finite
`seconds`; zero or negative renders `"now"`; otherwise a same-day `HH:MM`
clock time or a different-day `MM/DD` date at the reset instant (`"n/a"` if
the instant overflows the JS `Date` range). -/
def formatResetTarget (seconds : Option ℚ) (nowMs : ℤ) : String :=
  match seconds with
  | none => "n/a"
  | some s =>
    if s ≤ 0 then "now"
    else
      let targetMs := ratTrunc ((nowMs : ℚ) + s * 1000)
      if targetMs.natAbs > 8640000000000000 then "n/a"
      else
        let t := msToCivil targetMs
        let c := msToCivil nowMs
        if t.year = c.year ∧ t.month = c.month ∧ t.day = c.day then
          pad2 t.hour ++ ":" ++ pad2 t.minute
        else
          pad2 t.month ++ "/" ++ pad2 t.day

/-- Embeds `formatRateWindow(windowData)` with the clock passed explicitly
(the source reads `Date.now()` itself). -/
def formatRateWindow (w : Option RateWindow) (nowMs : ℤ) : String :=
  match w with
  | none => "n/a"
  | some wd =>
    let used := match wd.used_percent with
      | some u => intToStr u ++ "%"
      | none => "n/a"
    used ++ "/" ++ formatResetTarget (resolveResetSeconds (some wd) nowMs) nowMs

theorem string_ext {a b : String} (h : a.data = b.data) : a = b := by
  cases a; cases b; exact congrArg String.mk h

theorem append_reassoc_lit (s a b c : String) :
    s ++ a ++ b ++ c = s ++ (a ++ b ++ c) :=
  string_ext (by simp [data_append, List.append_assoc])

/-- C10: for a rate-limit window carrying a usage percentage, a resolved
reset countdown that is zero or negative renders as `"usedPercent%/now"`
(the literal `"now"`, not a clock time or date), and a countdown that cannot
be resolved to a finite number renders the target as `"n/a"`. -/
theorem rate_window_renders_now_or_na :
    ∀ (w : RateWindow) (nowMs u : ℤ), w.used_percent = some u →
      ((∀ s : ℚ, resolveResetSeconds (some w) nowMs = some s → s ≤ 0 →
          formatRateWindow (some w) nowMs = intToStr u ++ "%/now") ∧
        (resolveResetSeconds (some w) nowMs = none →
          formatRateWindow (some w) nowMs = intToStr u ++ "%/n/a")) := by
  intro w nowMs u hu
  constructor
  · intro s hres hle
    simp only [formatRateWindow, hu, hres, formatResetTarget, hle, if_true]
    rw [append_reassoc_lit]
    exact congrArg (intToStr u ++ ·) (by decide)
  · intro hres
    simp only [formatRateWindow, hu, hres, formatResetTarget]
    rw [append_reassoc_lit]
    exact congrArg (intToStr u ++ ·) (by decide)

/-- Witness for C10: a window at 12% with a countdown of `-5` seconds
renders `"12%/now"`, and one whose reset fields are all absent renders
`"12%/n/a"`. -/
theorem rate_window_renders_now_or_na_witness :
    ({ used_percent := some 12, resets_in_seconds := some (.num (-5)) } :
        RateWindow).used_percent = some 12 ∧
      formatRateWindow
        (some { used_percent := some 12, resets_in_seconds := some (.num (-5)) }) 0 =
        intToStr 12 ++ "%/now" ∧
      formatRateWindow (some { used_percent := some 12 }) 0 =
        intToStr 12 ++ "%/n/a" :=
  ⟨rfl,
    (rate_window_renders_now_or_na
        { used_percent := some 12, resets_in_seconds := some (.num (-5)) } 0 12 rfl).1
      (-5) rfl (by norm_num),
    (rate_window_renders_now_or_na { used_percent := some 12 } 0 12 rfl).2 rfl⟩

/-! ## Review Extractor (`normalizeReviewFinding`, `normalizeReviewPayload`,
`deriveReviewVerdict`, `mergeReviewData`) -/

/-- The `line_range` value of a code location: a non-object value, or an
object with optional finite `start`/`end` numbers. -/
inductive LineRangeVal where
  | nonObject
  | lr (lrStart lrEnd : Option ℚ)
deriving DecidableEq

/-- A `code_location` object as `normalizeReviewFinding` reads it.  Fields
not of the checked type are modelled as absent. -/
structure LocObj where
  absolute_file_path : Option String := none
  file_path : Option String := none
  line_range : Option LineRangeVal := none
  start_line : Option ℚ := none
  end_line : Option ℚ := none
deriving DecidableEq

/-- A `code_location` value: truthy non-objects fail the `typeof` check. -/
inductive LocInput where
  | nonObject
  | obj (l : LocObj)
deriving DecidableEq

/-- A raw finding object. -/
structure FindingObj where
  title : Option String := none
  body : Option String := none
  priority : Option ℚ := none
  severity : Option String := none
  confidence_score : Option ℚ := none
  confidence : Option ℚ := none
  code_location : Option LocInput := none
deriving DecidableEq

/-- A raw findings-array entry: `null` and non-objects are dropped. -/
inductive FindingInput where
  | nonObject
  | obj (f : FindingObj)
deriving DecidableEq

/-- A raw review object (`findings` of a non-array type is modelled as
absent, which the code also maps to `[]`). -/
structure ReviewObj where
  findings : Option (List FindingInput) := none
  overall_correctness : Option String := none
  overallCorrectness : Option String := none
  overall_explanation : Option String := none
  overallExplanation : Option String := none
  overall_confidence_score : Option ℚ := none
  overall_confidence : Option ℚ := none
  summary : Option String := none
deriving DecidableEq

/-- A review payload value as `normalizeReviewPayload` discriminates it:
a string together with what `JSON.parse` returns on its trimmed form
(`none` = parse error; `JSON.parse` itself is external, so its result is
carried with the string), a non-string non-object scalar carried as its
`String(raw)` form, or an object.  A payload string whose parse is JSON
`null` makes the code recurse without end (stack overflow), so such inputs
are outside this model. -/
inductive ReviewInput where
  | strUnparsed (s : String)
  | strParsed (s : String) (parsed : ReviewInput)
  | scalar (s : String)
  | obj (o : ReviewObj)

/-- A normalized finding location. -/
structure ReviewLocation where
  file : Option String
  startLine : Option ℚ
  endLine : Option ℚ
deriving DecidableEq

/-- A normalized ReviewFinding. -/
structure ReviewFinding where
  title : Option String
  body : Option String
  priority : Option ℚ
  severity : Option String
  confidence : Option ℚ
  location : Option ReviewLocation
deriving DecidableEq

/-- A normalized ReviewRecord.  `timestamp` holds a `Date` in the code
(epoch milliseconds here); a set `Date` is always truthy. -/
structure ReviewRecord where
  source : Option String
  summary : Option String
  overallCorrectness : Option String
  overallExplanation : Option String
  overallConfidence : Option ℚ
  findings : List ReviewFinding
  text : Option String
  verdict : Option String
  raw : Option ReviewInput
  timestamp : Option ℤ := none

/-- JS truthiness of an optional string (`""` is falsy). -/
def truthyS : Option String → Bool
  | some s => s ≠ ""
  | none => false

/-- JS truthiness of an optional review-input value (`""` is falsy, and a
non-string scalar is falsy exactly when it was `0`, `false` or `NaN`, whose
`String(raw)` forms are listed). -/
def truthyRI : Option ReviewInput → Bool
  | none => false
  | some (.strUnparsed s) => s ≠ ""
  | some (.strParsed s _) => s ≠ ""
  | some (.scalar s) => !(s = "0" || s = "false" || s = "NaN")
  | some (.obj _) => true

/-- JS `a || b` on optional strings treated as values. -/
def jsOrS (a b : Option String) : Option String := if truthyS a then a else b

/-- `typeof v === 'string' && v.trim() ? v.trim() : null`. -/
def trimNonempty (v : Option String) : Option String :=
  match v with
  | some s => let t := jsTrim s; if t ≠ "" then some t else none
  | none => none

/-- Embeds `normalizeReviewFinding(raw)`. -/
def normalizeReviewFinding : FindingInput → Option ReviewFinding
  | .nonObject => none
  | .obj f =>
    let title := trimNonempty f.title
    let body := trimNonempty f.body
    let severity := trimNonempty f.severity
    let confidence := f.confidence_score.orElse fun _ => f.confidence
    let location : Option ReviewLocation :=
      match f.code_location with
      | some (.obj loc) =>
        let file := (trimNonempty loc.absolute_file_path).orElse fun _ =>
          trimNonempty loc.file_path
        let lines : Option ℚ × Option ℚ :=
          match loc.line_range with
          | some (.lr a b) => (a, b)
          | _ => (loc.start_line, loc.end_line)
        if file.isSome ∨ lines.1.isSome ∨ lines.2.isSome then
          some ⟨file, lines.1, lines.2⟩
        else none
      | _ => none
    if title = none ∧ body = none ∧ location = none then none
    else some ⟨title, body, f.priority, severity, confidence, location⟩

/-- Embeds `deriveReviewVerdict(value)`. -/
def deriveReviewVerdict : Option String → Option String
  | none => none
  | some v =>
    let n := jsToLower (jsTrim v)
    if n = "" then none
    else if jsIncludes n "incorrect" || jsIncludes n "reject" || jsIncludes n "changes" then
      some "incorrect"
    else if jsIncludes n "correct" || jsIncludes n "approve" then
      some "correct"
    else if jsIncludes n "unsure" || jsIncludes n "uncertain" || jsIncludes n "follow-up" then
      some "unsure"
    else none

/-- The free-text ReviewRecord produced by the string / scalar branches of
`normalizeReviewPayload`. -/
def freeTextRecord (source t : String) (raw : Option ReviewInput) : ReviewRecord :=
  { source := some source, summary := some t, overallCorrectness := none,
    overallExplanation := some t, overallConfidence := none, findings := [],
    text := some t, verdict := none, raw := raw, timestamp := none }

/-- The non-null branches of `normalizeReviewPayload`, structurally
recursive on the payload value (a string input whose `JSON.parse` succeeds
recurses into the parsed value with the trimmed string as fallback text). -/
def normalizeRI : ReviewInput → String → Option String → Option ReviewRecord
  | .strUnparsed s, source, _ =>
    let trimmed := jsTrim s
    if trimmed = "" then none
    else some (freeTextRecord source trimmed (some (.strUnparsed s)))
  | .strParsed s parsed, source, _ =>
    let trimmed := jsTrim s
    if trimmed = "" then none
    else normalizeRI parsed source (some trimmed)
  | .scalar s, source, _ =>
    let t := jsTrim s
    if t = "" then none
    else some (freeTextRecord source t (some (.scalar s)))
  | .obj o, source, fallbackText =>
    let findings := (o.findings.getD []).filterMap normalizeReviewFinding
    let overallCorrectness := o.overall_correctness.orElse fun _ => o.overallCorrectness
    let explanationRaw := o.overall_explanation.orElse fun _ => o.overallExplanation
    let overallExplanation :=
      match explanationRaw with
      | some e => let t := jsTrim e; if e ≠ "" ∧ t ≠ "" then some t else none
      | none => none
    let overallConfidence := o.overall_confidence_score.orElse fun _ => o.overall_confidence
    let summaryRaw := trimNonempty o.summary
    let fbTrim : Option String :=
      match fallbackText with
      | some f => if f ≠ "" then some (jsTrim f) else none
      | none => none
    let summary := jsOrS summaryRaw (jsOrS overallExplanation (jsOrS fbTrim none))
    let text := jsOrS summary
      (match findings with
        | f :: _ => jsOrS f.title (jsOrS f.body none)
        | [] => none)
    some { source := some source, summary := summary,
           overallCorrectness := overallCorrectness,
           overallExplanation := overallExplanation,
           overallConfidence := overallConfidence, findings := findings,
           text := text, verdict := deriveReviewVerdict overallCorrectness,
           raw := some (.obj o), timestamp := none }

/-- Embeds `normalizeReviewPayload(raw, {source, fallbackText})`.  The
`raw == null` branch with a truthy fallback re-enters the string branch on
the fallback text; every reachable such call loops forever in the code
(the fallback's parse was JSON `null`), so that branch is modelled as the
free-text outcome. -/
def normalizeReviewPayload (raw : Option ReviewInput) (source : String)
    (fallbackText : Option String) : Option ReviewRecord :=
  match raw with
  | none =>
    match fallbackText with
    | some fb =>
      if fb ≠ "" then
        let t := jsTrim fb
        if t = "" then none else some (freeTextRecord source t (some (.strUnparsed fb)))
      else none
    | none => none
  | some ri => normalizeRI ri source fallbackText

/-- The record-level merge inside `mergeReviewData`: each scalar field keeps
the base's value when truthy, else takes the update's when truthy; finding
lists concatenate (base first); `raw`/`timestamp` are filled only when the
base's is not populated. -/
def mergeReviewRecords (b u : ReviewRecord) : ReviewRecord where
  source := if ¬truthyS b.source ∧ truthyS u.source then u.source else b.source
  summary := if ¬truthyS b.summary ∧ truthyS u.summary then u.summary else b.summary
  overallCorrectness :=
    if ¬truthyS b.overallCorrectness ∧ truthyS u.overallCorrectness then
      u.overallCorrectness else b.overallCorrectness
  overallExplanation :=
    if ¬truthyS b.overallExplanation ∧ truthyS u.overallExplanation then
      u.overallExplanation else b.overallExplanation
  overallConfidence :=
    if ¬b.overallConfidence.isSome ∧ u.overallConfidence.isSome then
      u.overallConfidence else b.overallConfidence
  findings :=
    if b.findings.length = 0 then u.findings
    else if u.findings.length > 0 then b.findings ++ u.findings
    else b.findings
  text := if ¬truthyS b.text ∧ truthyS u.text then u.text else b.text
  verdict := if ¬truthyS b.verdict ∧ truthyS u.verdict then u.verdict else b.verdict
  raw := if ¬truthyRI b.raw ∧ truthyRI u.raw then u.raw else b.raw
  timestamp :=
    if ¬b.timestamp.isSome ∧ u.timestamp.isSome then u.timestamp else b.timestamp

/-- Embeds `mergeReviewData(base, update)`. -/
def mergeReviewData (base update : Option ReviewRecord) : Option ReviewRecord :=
  match update with
  | none => base
  | some u =>
    match base with
    | none => some u
    | some b => some (mergeReviewRecords b u)

/-! ## User-action review extraction (`parseUserActionReview`) -/

/-- Case-insensitive prefix test (the tag regexes carry the `i` flag). -/
def ciPrefix (pat l : List Char) : Bool :=
  charsPrefix (pat.map Char.toLower) (l.map Char.toLower)

/-- The search for `/<action>\s*([^<]+)\s*<\/action>/i`: at each position try
`<action>`, capture the non-`<` span that follows, and require the closing
tag; otherwise resume at the next position (regex-engine scanning).  The
captured span keeps its surrounding whitespace, which the caller trims. -/
def scanActionTag : List Char → Option (List Char)
  | [] => none
  | l@(_ :: rest) =>
    if ciPrefix "<action>".data l then
      let after := l.drop 8
      let seg := after.takeWhile (· ≠ '<')
      if seg ≠ [] ∧ ciPrefix "</action>".data (after.drop seg.length) then some seg
      else scanActionTag rest
    else scanActionTag rest

/-- First index at which `pat` matches case-insensitively. -/
def findCI (pat : List Char) : List Char → Option ℕ
  | [] => if ciPrefix pat [] then some 0 else none
  | l@(_ :: rest) =>
    if ciPrefix pat l then some 0
    else (findCI pat rest).map (· + 1)

/-- The search for `/<results>([\s\S]*?)<\/results>/i`: the lazy group spans
from the first `<results>` to the first `</results>` after it. -/
def scanResults (l : List Char) : Option (List Char) :=
  match findCI "<results>".data l with
  | none => none
  | some i =>
    let after := l.drop (i + 9)
    match findCI "</results>".data after with
    | none => none
    | some j => some (after.take j)

/-- Embeds `parseUserActionReview(text)`.  The extracted results text is
normalized through the string path; its embedded `JSON.parse` is modelled as
failing (free text), which affects only the field layout of the produced
record, not whether one is produced. -/
def parseUserActionReview (text : String) : Option ReviewRecord :=
  if ¬ jsIncludes text "<user_action>" then none
  else
    match scanActionTag text.data with
    | none => none
    | some seg =>
      if jsToLower (jsTrim ⟨seg⟩) ≠ "review" then none
      else
        let resultsText :=
          match scanResults text.data with
          | some inner => jsTrim ⟨inner⟩
          | none => ""
        if resultsText = "" then none
        else normalizeReviewPayload (some (.strUnparsed resultsText)) "user_action" none

/-! ## Log Reader (`readLog`) -/

/-- A record's `timestamp` field: absent/falsy, present but unparseable
(`new Date(...)` is `NaN`), or parsed to epoch milliseconds. -/
inductive TsField where
  | absent
  | invalid
  | valid (ms : ℤ)
deriving DecidableEq

/-- A `turn_context` payload's sandbox policy. -/
structure SandboxPolicy where
  mode : Option String := none
  network_access : Option Bool := none
deriving DecidableEq

/-- A `turn_context` payload as the renderer reads it. -/
structure ContextPayload where
  model : Option String := none
  approval_policy : Option String := none
  sandbox_policy : Option SandboxPolicy := none
  cwd : Option String := none
deriving DecidableEq

/-- A token-usage object (`typeof total_tokens === 'number'`). -/
structure TokenUsage where
  total_tokens : Option ℤ := none
deriving DecidableEq

/-- The `info` object of a `token_count` payload. -/
structure TokenInfo where
  last_token_usage : Option TokenUsage := none
  total_token_usage : Option TokenUsage := none
deriving DecidableEq

/-- The `rate_limits` object of a `token_count` payload. -/
structure RateLimits where
  primary : Option RateWindow := none
  secondary : Option RateWindow := none
deriving DecidableEq

/-- An `event_msg` payload: the `type` discriminator plus the fields the
reader touches (`token_count` payloads are stored wholesale, so the usage
fields live here too). -/
structure EventPayload where
  type : Option String := none
  info : Option TokenInfo := none
  rate_limits : Option RateLimits := none
  message : Option ReviewInput := none
  review_output : Option ReviewInput := none

/-- One entry of a user response item's `content` array (`null` and
non-objects are skipped by the `typeof` guard). -/
inductive ContentPart where
  | nonObject
  | obj (text : Option String)

/-- A `response_item` payload. -/
structure ResponsePayload where
  role : Option String := none
  type : Option String := none
  content : Option (List ContentPart) := none

/-- One parsed log record, discriminated the way `readLog` does on the
`type` string (blank and unparseable lines are skipped before this point
and do not appear; records whose `payload` is falsy where the code requires
a truthy one carry `none`). -/
inductive LogRecord where
  | turnContext (ts : TsField) (payload : Option ContextPayload)
  | eventMsg (ts : TsField) (payload : Option EventPayload)
  | responseItem (ts : TsField) (payload : Option ResponsePayload)
  | otherRecord (ts : TsField)

/-- The record's timestamp field. -/
def LogRecord.ts : LogRecord → TsField
  | .turnContext t _ => t
  | .eventMsg t _ => t
  | .responseItem t _ => t
  | .otherRecord t => t

/-- The accumulator of `readLog`, including the loop-local review flags. -/
structure SessionState where
  lastContext : Option ContextPayload := none
  lastTokenCount : Option EventPayload := none
  lastTimestamp : Option ℤ := none
  lastAssistantMessageTime : Option ℤ := none
  lastActivity : Option String := none
  lastReview : Option ReviewRecord := none
  reviewMode : Bool := false
  pendingReview : Option ReviewRecord := none

/-- `if (record.timestamp) { const ts = new Date(...); if (!isNaN) x = ts }`. -/
def tsUpdate (ts : TsField) (cur : Option ℤ) : Option ℤ :=
  match ts with
  | .valid ms => some ms
  | _ => cur

/-- The tail of the `exited_review_mode` branch: stamp the record with the
current `lastTimestamp` when one is set, and fill a missing verdict from the
correctness string. -/
def exitAdjust (ts : Option ℤ) (rd : ReviewRecord) : ReviewRecord :=
  let rd := if ts.isSome then { rd with timestamp := ts } else rd
  if ¬truthyS rd.verdict then
    { rd with verdict := deriveReviewVerdict rd.overallCorrectness }
  else rd

/-- The content-array scan of the user response branch: the first object
entry with a string `text` whose `parseUserActionReview` is non-null. -/
def userReviewFromContent : List ContentPart → Option ReviewRecord
  | [] => none
  | .nonObject :: rest => userReviewFromContent rest
  | .obj none :: rest => userReviewFromContent rest
  | .obj (some t) :: rest =>
    match parseUserActionReview t with
    | some r => some r
    | none => userReviewFromContent rest

/-- One loop iteration of `readLog` on one parsed record. -/
def stepRecord (s : SessionState) (r : LogRecord) : SessionState :=
  let s := { s with lastTimestamp := tsUpdate r.ts s.lastTimestamp }
  match r with
  | .turnContext _ payload => { s with lastContext := payload }
  | .eventMsg _ none => s
  | .eventMsg _ (some ep) =>
    if ep.type = some "token_count" then { s with lastTokenCount := some ep }
    else if ep.type = some "entered_review_mode" then
      { s with reviewMode := true, pendingReview := none }
    else if ep.type = some "agent_message" then
      if s.reviewMode then
        match normalizeReviewPayload ep.message "agent_message" none with
        | some n =>
          let n := if s.lastTimestamp.isSome then { n with timestamp := s.lastTimestamp } else n
          { s with pendingReview := mergeReviewData s.pendingReview (some n) }
        | none => s
      else s
    else if ep.type = some "exited_review_mode" then
      let s := { s with reviewMode := false }
      let fromPayload := normalizeReviewPayload ep.review_output "exited_review_mode" none
      let reviewData := mergeReviewData fromPayload s.pendingReview
      let reviewData :=
        if reviewData.isNone ∧ truthyRI ep.message then
          normalizeReviewPayload ep.message "exited_review_mode" none
        else reviewData
      match reviewData with
      | some rd =>
        { s with lastReview := some (exitAdjust s.lastTimestamp rd),
                 lastActivity := some "review", pendingReview := none }
      | none => { s with pendingReview := none }
    else s
  | .responseItem t (some p) =>
    let s :=
      if p.role = some "assistant" then
        { s with lastAssistantMessageTime := tsUpdate t s.lastAssistantMessageTime }
      else s
    if p.role = some "user" then
      match userReviewFromContent (p.content.getD []) with
      | some rev =>
        let rev := if s.lastTimestamp.isSome then { rev with timestamp := s.lastTimestamp } else rev
        let merged :=
          match mergeReviewData s.lastReview (some rev) with
          | some m => m
          | none => rev
        let merged :=
          if ¬truthyS merged.verdict then
            { merged with verdict := deriveReviewVerdict merged.overallCorrectness }
          else merged
        { s with lastReview := some merged, lastActivity := some "review" }
      | none => { s with lastActivity := some "user" }
    else if p.role = some "assistant" then { s with lastActivity := some "assistant" }
    else if p.type = some "function_call" then { s with lastActivity := some "tool" }
    else if p.type = some "reasoning" then { s with lastActivity := some "thinking" }
    else s
  | .responseItem _ none => s
  | .otherRecord _ => s

/-- Embeds `readLog`: fold the per-record step over the parsed records of
the file in order, starting from the empty state. -/
def readLog (records : List LogRecord) : SessionState :=
  records.foldl stepRecord {}

/-! ## C1: last write wins for `lastContext` / `lastTokenCount` -/

/-- From the spec's words: the payload field of the last `turn_context`
record in file order (`none` when the log has no `turn_context` record). -/
def lastTurnContextPayload (records : List LogRecord) : Option (Option ContextPayload) :=
  (records.filterMap fun r =>
    match r with
    | .turnContext _ p => some p
    | _ => none).getLast?

/-- From the spec's words: the payload of the last `event_msg` record with
inner type `token_count` in file order. -/
def lastTokenCountPayload (records : List LogRecord) : Option EventPayload :=
  (records.filterMap fun r =>
    match r with
    | .eventMsg _ (some ep) => if ep.type = some "token_count" then some ep else none
    | _ => none).getLast?

theorem stepRecord_lastContext (s : SessionState) (r : LogRecord) :
    (stepRecord s r).lastContext =
      match r with
      | .turnContext _ p => p
      | _ => s.lastContext := by
  cases r with
  | turnContext t p => rfl
  | otherRecord t => rfl
  | eventMsg t p =>
    cases p with
    | none => rfl
    | some ep =>
      simp only [stepRecord]
      repeat' split
      all_goals rfl
  | responseItem t p =>
    cases p with
    | none => rfl
    | some rp =>
      simp only [stepRecord]
      repeat' split
      all_goals rfl

theorem stepRecord_lastTokenCount (s : SessionState) (r : LogRecord) :
    (stepRecord s r).lastTokenCount =
      match r with
      | .eventMsg _ (some ep) =>
        if ep.type = some "token_count" then some ep else s.lastTokenCount
      | _ => s.lastTokenCount := by
  cases r with
  | turnContext t p => rfl
  | otherRecord t => rfl
  | eventMsg t p =>
    cases p with
    | none => rfl
    | some ep =>
      simp only [stepRecord]
      repeat' split
      all_goals rfl
  | responseItem t p =>
    cases p with
    | none => rfl
    | some rp =>
      simp only [stepRecord]
      repeat' split
      all_goals rfl

theorem foldl_lastContext (records : List LogRecord) (s : SessionState) :
    (records.foldl stepRecord s).lastContext =
      match lastTurnContextPayload records with
      | some p => p
      | none => s.lastContext := by
  induction records using List.reverseRecOn with
  | nil => rfl
  | append_singleton l r ih =>
    rw [List.foldl_append]
    simp only [List.foldl_cons, List.foldl_nil]
    rw [stepRecord_lastContext]
    unfold lastTurnContextPayload at *
    rw [List.filterMap_append]
    cases r with
    | turnContext t p => simp [List.getLast?_concat]
    | eventMsg t p => simp [ih]
    | responseItem t p => simp [ih]
    | otherRecord t => simp [ih]

theorem foldl_lastTokenCount (records : List LogRecord) (s : SessionState) :
    (records.foldl stepRecord s).lastTokenCount =
      match lastTokenCountPayload records with
      | some ep => some ep
      | none => s.lastTokenCount := by
  induction records using List.reverseRecOn with
  | nil => rfl
  | append_singleton l r ih =>
    rw [List.foldl_append]
    simp only [List.foldl_cons, List.foldl_nil]
    rw [stepRecord_lastTokenCount]
    unfold lastTokenCountPayload at *
    rw [List.filterMap_append]
    cases r with
    | turnContext t p => simp [ih]
    | eventMsg t p =>
      cases p with
      | none => simp [ih]
      | some ep =>
        by_cases h : ep.type = some "token_count"
        · simp [h, List.getLast?_concat]
        · simp [h, ih]
    | responseItem t p => simp [ih]
    | otherRecord t => simp [ih]

/-- C1: for every log, `readLog`'s final `lastContext` is exactly the
payload of the last `turn_context` record in file order, and
`lastTokenCount` is exactly the payload of the last `event_msg` record with
inner type `token_count` — later records replace these fields wholesale
(last write wins, no field-level merging). -/
theorem readLog_last_write_wins (records : List LogRecord) :
    (readLog records).lastContext = (lastTurnContextPayload records).join ∧
    (readLog records).lastTokenCount = lastTokenCountPayload records := by
  constructor
  · rw [readLog, foldl_lastContext]
    cases lastTurnContextPayload records <;> rfl
  · rw [readLog, foldl_lastTokenCount]
    cases lastTokenCountPayload records <;> rfl

/-! ## C9: `review` activity only together with a ReviewRecord -/

theorem stepRecord_review_invariant (s : SessionState) (r : LogRecord)
    (h : s.lastActivity = some "review" → s.lastReview.isSome) :
    (stepRecord s r).lastActivity = some "review" →
      (stepRecord s r).lastReview.isSome := by
  cases r with
  | turnContext t p => exact h
  | otherRecord t => exact h
  | eventMsg t p =>
    cases p with
    | none => exact h
    | some ep =>
      simp only [stepRecord]
      repeat' split
      all_goals intro hact
      all_goals first | rfl | exact h hact
  | responseItem t p =>
    cases p with
    | none => exact h
    | some rp =>
      simp only [stepRecord]
      repeat' split
      all_goals intro hact
      all_goals first
        | rfl
        | exact h hact
        | (injection hact with hh; exact absurd hh (by decide))

/-- C9: at every step of the Log Reader's scan (hence for every record
list), the final activity tag is `review` only if a ReviewRecord was also
produced: no input can set `lastActivity = review` while leaving
`lastReview` null. -/
theorem readLog_review_only_with_record (records : List LogRecord) :
    (readLog records).lastActivity = some "review" →
      (readLog records).lastReview.isSome := by
  have general : ∀ (rs : List LogRecord) (s : SessionState),
      (s.lastActivity = some "review" → s.lastReview.isSome) →
      ((rs.foldl stepRecord s).lastActivity = some "review" →
        (rs.foldl stepRecord s).lastReview.isSome) := by
    intro rs
    induction rs with
    | nil => intro s h; exact h
    | cons r rest ih =>
      intro s h
      exact ih _ (stepRecord_review_invariant s r h)
  exact general records {} (fun hact => Option.noConfusion hact)

/-- A one-record log that exits review mode with a free-text
`review_output`. -/
def exitedReviewLog : List LogRecord :=
  [.eventMsg .absent (some { type := some "exited_review_mode", review_output := some (.scalar "looks good") })]

/-- Witness for C9: on `exitedReviewLog` the final activity is `review` and
a ReviewRecord is present. -/
theorem readLog_review_only_with_record_witness :
    (readLog exitedReviewLog).lastActivity = some "review" ∧
      (readLog exitedReviewLog).lastReview.isSome :=
  ⟨rfl, readLog_review_only_with_record _ rfl⟩

/-! ## C3 / C4: review merging -/

theorem mergeRecords_findings (b u : ReviewRecord) :
    (mergeReviewRecords b u).findings = b.findings ++ u.findings := by
  simp only [mergeReviewRecords]
  by_cases hb : b.findings.length = 0
  · rw [if_pos hb]
    rw [List.length_eq_zero] at hb
    simp [hb]
  · rw [if_neg hb]
    by_cases hu : u.findings.length > 0
    · rw [if_pos hu]
    · rw [if_neg hu]
      have : u.findings = [] := by
        cases h : u.findings with
        | nil => rfl
        | cons a l => rw [h] at hu; simp at hu
      simp [this]

theorem exitAdjust_findings (ts : Option ℤ) (rd : ReviewRecord) :
    (exitAdjust ts rd).findings = rd.findings := by
  simp only [exitAdjust]
  split <;> split <;> rfl

/-- The `exited_review_mode` branch of `stepRecord`, when the event's
`review_output` normalizes to a record `b`: the stored review is the merge
of `b` with the pending partial (when one exists), stamped and
verdict-filled. -/
theorem stepExited_lastReview (s : SessionState) (t : TsField) (ep : EventPayload)
    (b : ReviewRecord) (htype : ep.type = some "exited_review_mode")
    (hnorm : normalizeReviewPayload ep.review_output "exited_review_mode" none = some b) :
    (stepRecord s (.eventMsg t (some ep))).lastReview =
      some (exitAdjust (tsUpdate t s.lastTimestamp)
        (match s.pendingReview with
          | some u => mergeReviewRecords b u
          | none => b)) := by
  simp only [stepRecord, htype, hnorm, mergeReviewData, LogRecord.ts]
  cases s.pendingReview <;> simp

/-- C3: on an `exited_review_mode` event the stored ReviewRecord is built by
merging the normalized `review_output` (base) with the pending partial
review (update); in that merge every scalar field keeps the base's value
when already non-empty and takes the update's otherwise, finding lists
concatenate with the base's first, and a populated `raw` or `timestamp` is
never overwritten. -/
theorem exited_review_merge_semantics :
    (∀ b u : ReviewRecord,
      (truthyS b.summary → (mergeReviewRecords b u).summary = b.summary) ∧
      (¬truthyS b.summary → truthyS u.summary →
        (mergeReviewRecords b u).summary = u.summary) ∧
      (truthyS b.overallCorrectness →
        (mergeReviewRecords b u).overallCorrectness = b.overallCorrectness) ∧
      (¬truthyS b.overallCorrectness → truthyS u.overallCorrectness →
        (mergeReviewRecords b u).overallCorrectness = u.overallCorrectness) ∧
      (truthyS b.overallExplanation →
        (mergeReviewRecords b u).overallExplanation = b.overallExplanation) ∧
      (¬truthyS b.overallExplanation → truthyS u.overallExplanation →
        (mergeReviewRecords b u).overallExplanation = u.overallExplanation) ∧
      (b.overallConfidence.isSome →
        (mergeReviewRecords b u).overallConfidence = b.overallConfidence) ∧
      (¬b.overallConfidence.isSome → u.overallConfidence.isSome →
        (mergeReviewRecords b u).overallConfidence = u.overallConfidence) ∧
      (truthyS b.text → (mergeReviewRecords b u).text = b.text) ∧
      (¬truthyS b.text → truthyS u.text → (mergeReviewRecords b u).text = u.text) ∧
      (truthyS b.verdict → (mergeReviewRecords b u).verdict = b.verdict) ∧
      (¬truthyS b.verdict → truthyS u.verdict →
        (mergeReviewRecords b u).verdict = u.verdict) ∧
      (truthyS b.source → (mergeReviewRecords b u).source = b.source) ∧
      (¬truthyS b.source → truthyS u.source →
        (mergeReviewRecords b u).source = u.source) ∧
      (mergeReviewRecords b u).findings = b.findings ++ u.findings ∧
      (truthyRI b.raw → (mergeReviewRecords b u).raw = b.raw) ∧
      (b.timestamp.isSome → (mergeReviewRecords b u).timestamp = b.timestamp)) ∧
    (∀ (s : SessionState) (t : TsField) (ep : EventPayload) (b u : ReviewRecord),
      ep.type = some "exited_review_mode" →
      normalizeReviewPayload ep.review_output "exited_review_mode" none = some b →
      s.pendingReview = some u →
      (stepRecord s (.eventMsg t (some ep))).lastReview =
        some (exitAdjust (tsUpdate t s.lastTimestamp) (mergeReviewRecords b u))) := by
  constructor
  · intro b u
    refine ⟨fun h => by simp [mergeReviewRecords, h],
      fun h1 h2 => by simp [mergeReviewRecords, h1, h2],
      fun h => by simp [mergeReviewRecords, h],
      fun h1 h2 => by simp [mergeReviewRecords, h1, h2],
      fun h => by simp [mergeReviewRecords, h],
      fun h1 h2 => by simp [mergeReviewRecords, h1, h2],
      fun h => by simp [mergeReviewRecords, h],
      fun h1 h2 => by simp [mergeReviewRecords, h1, h2],
      fun h => by simp [mergeReviewRecords, h],
      fun h1 h2 => by simp [mergeReviewRecords, h1, h2],
      fun h => by simp [mergeReviewRecords, h],
      fun h1 h2 => by simp [mergeReviewRecords, h1, h2],
      fun h => by simp [mergeReviewRecords, h],
      fun h1 h2 => by simp [mergeReviewRecords, h1, h2],
      mergeRecords_findings b u,
      fun h => by simp [mergeReviewRecords, h],
      fun h => by simp [mergeReviewRecords, h]⟩
  · intro s t ep b u htype hnorm hpend
    rw [stepExited_lastReview s t ep b htype hnorm, hpend]

/-- A pending partial-review record for witnesses. -/
def pendNote : ReviewRecord := freeTextRecord "agent_message" "note" none

/-- An `exited_review_mode` payload whose `review_output` is free text. -/
def exitEp : EventPayload :=
  { type := some "exited_review_mode", review_output := some (.scalar "ok") }

/-- The normalization of `exitEp`'s `review_output`. -/
def exitB : ReviewRecord := freeTextRecord "exited_review_mode" "ok" (some (.scalar "ok"))

/-- Witness for C3: the step equation at a concrete state with a pending
partial review, plus one concrete merge-precedence fact. -/
theorem exited_review_merge_semantics_witness :
    normalizeReviewPayload exitEp.review_output "exited_review_mode" none = some exitB ∧
    (stepRecord { pendingReview := some pendNote } (.eventMsg .absent (some exitEp))).lastReview =
      some (exitAdjust (tsUpdate .absent none) (mergeReviewRecords exitB pendNote)) ∧
    (mergeReviewRecords exitB pendNote).summary = exitB.summary :=
  ⟨rfl,
    exited_review_merge_semantics.2 _ .absent exitEp exitB pendNote rfl rfl rfl,
    (exited_review_merge_semantics.1 exitB pendNote).1 rfl⟩

/-! ## C4: findings are neither dropped nor duplicated across a cycle -/

/-- The review-findings count held in the pending partial review. -/
def pendingCount (s : SessionState) : ℕ :=
  match s.pendingReview with
  | some r => r.findings.length
  | none => 0

/-- An `event_msg` record entering review mode. -/
def enteredReviewRecord : LogRecord :=
  .eventMsg .absent (some { type := some "entered_review_mode" })

/-- An `event_msg` record carrying one in-review agent message. -/
def agentMsgRecord (m : Option ReviewInput) : LogRecord :=
  .eventMsg .absent (some { type := some "agent_message", message := m })

/-- An `event_msg` record exiting review mode with the given `review_output`. -/
def exitedReviewRecord (out : Option ReviewInput) : LogRecord :=
  .eventMsg .absent (some { type := some "exited_review_mode", review_output := out })

/-- The number of normalized findings one agent message contributes. -/
def reviewContribution (m : Option ReviewInput) : ℕ :=
  match normalizeReviewPayload m "agent_message" none with
  | some r => r.findings.length
  | none => 0

theorem stepEntered (s : SessionState) :
    stepRecord s enteredReviewRecord = { s with reviewMode := true, pendingReview := none } := rfl

theorem stepAgent_eq (s : SessionState) (m : Option ReviewInput) :
    stepRecord s (agentMsgRecord m) =
      if s.reviewMode then
        match normalizeReviewPayload m "agent_message" none with
        | some n =>
          let n' := if s.lastTimestamp.isSome then { n with timestamp := s.lastTimestamp } else n
          { s with pendingReview := mergeReviewData s.pendingReview (some n') }
        | none => s
      else s := rfl

theorem stepAgent (s : SessionState) (m : Option ReviewInput) (hrm : s.reviewMode = true) :
    (stepRecord s (agentMsgRecord m)).reviewMode = true ∧
    (stepRecord s (agentMsgRecord m)).lastTimestamp = s.lastTimestamp ∧
    pendingCount (stepRecord s (agentMsgRecord m)) =
      pendingCount s + reviewContribution m := by
  rw [stepAgent_eq, hrm, if_pos rfl]
  cases hn : normalizeReviewPayload m "agent_message" none with
  | none => exact ⟨hrm, rfl, by simp [pendingCount, reviewContribution, hn]⟩
  | some n =>
    refine ⟨rfl, rfl, ?_⟩
    simp only [mergeReviewData]
    cases hp : s.pendingReview with
    | none =>
      simp only [hp, pendingCount, reviewContribution, hn]
      split <;> simp
    | some b =>
      simp only [hp, pendingCount, reviewContribution, hn]
      split <;> (rw [mergeRecords_findings]; simp)

theorem agentFold (msgs : List (Option ReviewInput)) : ∀ (s : SessionState),
    s.reviewMode = true →
    (List.foldl stepRecord s (msgs.map agentMsgRecord)).reviewMode = true ∧
    (List.foldl stepRecord s (msgs.map agentMsgRecord)).lastTimestamp = s.lastTimestamp ∧
    pendingCount (List.foldl stepRecord s (msgs.map agentMsgRecord)) =
      pendingCount s + (msgs.map reviewContribution).sum := by
  induction msgs with
  | nil => intro s h; exact ⟨h, rfl, by simp⟩
  | cons m rest ih =>
    intro s h
    obtain ⟨h1, h2, h3⟩ := stepAgent s m h
    obtain ⟨g1, g2, g3⟩ := ih (stepRecord s (agentMsgRecord m)) h1
    simp only [List.map_cons, List.foldl_cons]
    refine ⟨g1, by rw [g2, h2], ?_⟩
    rw [g3, h3, List.sum_cons]
    omega

/-- C4: merging adds finding counts exactly; a normalized object record's
findings are exactly the normalized findings of its input (a list, possibly
empty, never null); and across a whole review cycle (enter, agent messages,
exit) the final `lastReview` carries the sum of all contributed findings —
none dropped, none duplicated. -/
theorem review_findings_complete :
    (∀ b u : ReviewRecord,
      (mergeReviewRecords b u).findings.length =
        b.findings.length + u.findings.length) ∧
    (∀ (o : ReviewObj) (source : String) (fb : Option String) (r : ReviewRecord),
      normalizeRI (.obj o) source fb = some r →
      r.findings = (o.findings.getD []).filterMap normalizeReviewFinding) ∧
    (∀ (s0 : SessionState) (msgs : List (Option ReviewInput))
        (out : Option ReviewInput) (b : ReviewRecord),
      normalizeReviewPayload out "exited_review_mode" none = some b →
      ∃ rd, (List.foldl stepRecord s0
          (enteredReviewRecord :: (msgs.map agentMsgRecord ++ [exitedReviewRecord out]))).lastReview =
          some rd ∧
        rd.findings.length =
          b.findings.length + (msgs.map reviewContribution).sum) := by
  refine ⟨?_, ?_, ?_⟩
  · intro b u
    rw [mergeRecords_findings, List.length_append]
  · intro o source fb r h
    simp only [normalizeRI] at h
    cases h
    rfl
  · intro s0 msgs out b hnorm
    simp only [List.foldl_cons, List.foldl_append, List.foldl_nil]
    rw [stepEntered]
    set s1 : SessionState := { s0 with reviewMode := true, pendingReview := none } with hs1
    obtain ⟨g1, g2, g3⟩ := agentFold msgs s1 rfl
    set s2 := List.foldl stepRecord s1 (msgs.map agentMsgRecord) with hs2
    have hpc : pendingCount s1 = 0 := rfl
    rw [hpc] at g3
    have hexit := stepExited_lastReview s2 .absent
      { type := some "exited_review_mode", review_output := out } b rfl hnorm
    cases hp : s2.pendingReview with
    | none =>
      rw [hp] at hexit
      have hc : pendingCount s2 = 0 := by simp [pendingCount, hp]
      rw [hc] at g3
      refine ⟨_, hexit, ?_⟩
      rw [exitAdjust_findings]
      show b.findings.length = _
      omega
    | some u =>
      rw [hp] at hexit
      have hc : pendingCount s2 = u.findings.length := by simp [pendingCount, hp]
      rw [hc] at g3
      refine ⟨_, hexit, ?_⟩
      rw [exitAdjust_findings]
      show (mergeReviewRecords b u).findings.length = _
      rw [mergeRecords_findings, List.length_append]
      omega

/-- Witness for C4: a concrete cycle with one agent message carrying two
findings and an exit payload carrying none. -/
theorem review_findings_complete_witness :
    normalizeReviewPayload (some (.scalar "done")) "exited_review_mode" none =
      some (freeTextRecord "exited_review_mode" "done" (some (.scalar "done"))) ∧
    ∃ rd, (List.foldl stepRecord {}
        (enteredReviewRecord ::
          ([some (ReviewInput.obj { findings := some [.obj { title := some "t1" }, .obj { title := some "t2" }] })].map agentMsgRecord ++
            [exitedReviewRecord (some (.scalar "done"))]))).lastReview = some rd ∧
      rd.findings.length =
        (freeTextRecord "exited_review_mode" "done" (some (.scalar "done"))).findings.length +
          ([some (ReviewInput.obj { findings := some [.obj { title := some "t1" }, .obj { title := some "t2" }] })].map reviewContribution).sum :=
  ⟨rfl, review_findings_complete.2.2 {} _ _ _ rfl⟩

/-! ## Field Registry and Line Composer (`FIELD_DEFINITIONS`,
`normalizeFieldKey`, `formatSessionSummary`) -/

/-- `CANONICAL_FIELDS`. -/
def CANONICAL_FIELDS : List String :=
  ["sound", "time", "error", "model", "approval", "sandbox", "daily", "weekly",
    "recent", "total", "activity", "directory"]

/-- `FIELD_ALIASES`. -/
def FIELD_ALIASES : List (String × String) :=
  [("sound", "sound"), ("speaker", "sound"), ("time", "time"),
    ("timestamp", "time"), ("age", "time"), ("error", "error"),
    ("model", "model"), ("agent", "model"), ("approval", "approval"),
    ("policy", "approval"), ("sandbox", "sandbox"),
    ("sandbox-policy", "sandbox"), ("env", "sandbox"), ("primary", "daily"),
    ("daily", "daily"), ("quota", "daily"), ("secondary", "weekly"),
    ("weekly", "weekly"), ("billing", "weekly"), ("recent", "recent"),
    ("recent-tokens", "recent"), ("latest", "recent"), ("total", "total"),
    ("total-tokens", "total"), ("cumulative", "total"),
    ("activity", "activity"), ("role", "activity"), ("action", "activity"),
    ("directory", "directory"), ("cwd", "directory"), ("path", "directory")]

/-- `DEFAULT_FORMAT_ORDER`. -/
def DEFAULT_FORMAT_ORDER : List String :=
  ["sound", "time", "activity", "daily", "weekly", "recent", "total", "error",
    "model", "approval", "sandbox", "directory"]

/-- Property lookup in a plain-object-as-map (`obj[key]`, `hasOwnProperty`). -/
def lookupAssoc (l : List (String × String)) (k : String) : Option String :=
  (l.find? (fun p => p.1 = k)).map (·.2)

/-- Embeds `normalizeFieldKey(key)` on string keys. -/
def normalizeFieldKey (key : String) : Option String :=
  match lookupAssoc FIELD_ALIASES (jsToLower (jsTrim key)) with
  | none => none
  | some lookup => if CANONICAL_FIELDS.contains lookup then some lookup else none

/-- The options bag consumed by the renderer (defaults per `parseArgs`;
`soundMuted` / `showSoundStatus` are set by the Watch Driver). -/
structure RenderOptions where
  minimal : Bool := false
  formatOrder : Option (List String) := none
  labelOverrides : List (String × String) := []
  sound : String := "off"
  soundMuted : Bool := false
  showSoundStatus : Bool := false

/-- One session's data as `formatSessionSummary` consumes it
(`detail.log.mtime` plus the `readLog` outputs it reads). -/
structure RenderDetail where
  mtimeMs : ℤ
  error : Option String := none
  lastContext : Option ContextPayload := none
  lastTokenCount : Option EventPayload := none
  lastActivity : Option String := none

/-- Environment inputs the renderer reads implicitly: `os.homedir()` and
`Date.now()`. -/
structure RenderEnv where
  homeDir : String
  nowMs : ℤ

/-- Embeds `resolveSoundStatusIcon(options)`. -/
def resolveSoundStatusIcon (o : RenderOptions) : Option String :=
  if ¬o.showSoundStatus then none
  else if o.sound = "" ∨ o.sound = "off" then none
  else if o.soundMuted then some "🔇" else some "🔊"

/-- The `activityMap[activity] || activity` lookup. -/
def activityIcon (a : String) : String :=
  if a = "user" then "👤"
  else if a = "assistant" then "⁉️"
  else if a = "tool" then "🔧"
  else if a = "thinking" then "🤔"
  else if a = "review" then "📝"
  else a

/-- Each field's `defaultLabel`. -/
def defaultLabel (key : String) : String :=
  if key = "sound" then ""
  else if key = "time" then "🕒"
  else if key = "error" then "❌"
  else if key = "model" then "🤖"
  else if key = "approval" then "🛂"
  else if key = "sandbox" then "🧪"
  else if key = "daily" then "🕔"
  else if key = "weekly" then "🗓"
  else if key = "recent" then "🔄"
  else if key = "total" then "📦"
  else if key = "activity" then "💭"
  else if key = "directory" then "📁"
  else ""

/-- `tokenCount ? tokenCount.info || null : null`. -/
def tokenInfoOf (tokenCount : Option EventPayload) : Option TokenInfo :=
  tokenCount.bind (·.info)

/-- Embeds `FIELD_DEFINITIONS.recent.build` as a function of the derived
`tokenInfo`: the compact last-usage total when present, the literal `"n/a"`
when `tokenInfo` itself is missing, and nothing otherwise. -/
def recentBuild (tokenInfo : Option TokenInfo) : Option String :=
  match tokenInfo with
  | some ti =>
    match ti.last_token_usage with
    | some u =>
      match u.total_tokens with
      | some t => some (formatCompact (some t))
      | none => none
    | none => none
  | none => some "n/a"

/-- Embeds `FIELD_DEFINITIONS.total.build`. -/
def totalBuild (tokenInfo : Option TokenInfo) : Option String :=
  match tokenInfo with
  | some ti =>
    match ti.total_token_usage with
    | some u =>
      match u.total_tokens with
      | some t => some (formatCompact (some t))
      | none => none
    | none => none
  | none => none

/-- Embeds the `FIELD_DEFINITIONS[key].build` dispatch over the same field
context `formatSessionSummary` assembles. -/
def buildField (env : RenderEnv) (detail : RenderDetail) (opts : RenderOptions)
    (key : String) : Option String :=
  let context := detail.lastContext.getD {}
  let tokenInfo := tokenInfoOf detail.lastTokenCount
  let rateLimits := detail.lastTokenCount.bind (·.rate_limits)
  if key = "sound" then resolveSoundStatusIcon opts
  else if key = "time" then some (formatAgoShort env.nowMs detail.mtimeMs)
  else if key = "error" then
    (match detail.error with
      | some e => if e ≠ "" then some e else none
      | none => none)
  else if key = "model" then
    (match context.model with
      | some m => if m ≠ "" then some (stripModelPrefix m) else none
      | none => none)
  else if key = "approval" then
    (if opts.minimal then none
      else match context.approval_policy with
        | some a => if a ≠ "" then some a else none
        | none => none)
  else if key = "sandbox" then
    (if opts.minimal then none
      else match context.sandbox_policy with
        | some pol =>
          (match pol.mode with
            | some md =>
              if md ≠ "" then
                some (if pol.network_access = some false then md ++ "🚫" else md)
              else none
            | none => none)
        | none => none)
  else if key = "daily" then
    (match rateLimits with
      | some rl =>
        (match rl.primary with
          | some p => some (formatRateWindow (some p) env.nowMs)
          | none => none)
      | none => none)
  else if key = "weekly" then
    (match rateLimits with
      | some rl =>
        (match rl.secondary with
          | some p => some (formatRateWindow (some p) env.nowMs)
          | none => none)
      | none => none)
  else if key = "recent" then recentBuild tokenInfo
  else if key = "total" then totalBuild tokenInfo
  else if key = "activity" then
    (if opts.minimal then none
      else match detail.lastActivity with
        | some a => if a = "" then none else some (activityIcon a)
        | none => none)
  else if key = "directory" then
    (if opts.minimal then none
      else match context.cwd with
        | some c =>
          if c ≠ "" then
            (let d := trimPath env.homeDir c
             if d ≠ "" then some d else none)
          else none
        | none => none)
  else none

/-- The order resolution of `formatSessionSummary`: an explicit non-empty
format list or the default, each entry normalized through the alias table
and deduplicated. -/
def resolveOrder (fo : Option (List String)) : List String :=
  let orderSource :=
    match fo with
    | some l => if l ≠ [] then l else DEFAULT_FORMAT_ORDER
    | none => DEFAULT_FORMAT_ORDER
  orderSource.foldl (fun acc entry =>
    match normalizeFieldKey entry with
    | some key => if acc.contains key then acc else acc ++ [key]
    | none => acc) []

/-- Embeds `formatSessionSummary(detail, options)`: derive each ordered
field, skip empty values, prefix each value with its (possibly overridden)
label, join with single spaces, and fall back to the placeholder when
nothing rendered. -/
def formatSessionSummary (env : RenderEnv) (detail : RenderDetail)
    (opts : RenderOptions) : String :=
  let order := resolveOrder opts.formatOrder
  let pieces := order.foldl (fun acc key =>
    match buildField env detail opts key with
    | none => acc
    | some v =>
      if v = "" then acc
      else
        let label :=
          match lookupAssoc opts.labelOverrides key with
          | some ov => ov
          | none => defaultLabel key
        if label ≠ "" then acc ++ [label ++ v] else acc ++ [v]) []
  if pieces = [] then "⚡ no status" else jsJoin pieces " "

/-! ## C5: the `recent` field and `"n/a"` -/

/-- C5 counterexample: a token snapshot whose `info` object exists but lacks
the last-usage sub-field makes the `recent` field render nothing (`null`,
omitted), not the literal `"n/a"` — so "renders n/a when a snapshot exists
but lacks this sub-field" fails for the usage sub-field. -/
theorem recent_field_na_counterexample :
    recentBuild (tokenInfoOf (some { type := some "token_count", info := some {} })) = none ∧
      (none : Option String) ≠ some "n/a" :=
  ⟨rfl, by decide⟩

/-- C5 (amended): `recent` renders `"n/a"` exactly when the derived token
info is missing (snapshot absent, or snapshot present without `info`); when
`info` is present the field is never `"n/a"`: it is the compact count when
the last-usage total exists and is omitted (`null`) otherwise. -/
theorem recent_field_na_amended :
    (∀ tc : EventPayload, tc.info = none →
      recentBuild (tokenInfoOf (some tc)) = some "n/a") ∧
    (recentBuild (tokenInfoOf none) = some "n/a") ∧
    (∀ (tc : EventPayload) (ti : TokenInfo), tc.info = some ti →
      recentBuild (tokenInfoOf (some tc)) ≠ some "n/a") ∧
    (∀ (tc : EventPayload) (ti : TokenInfo) (u : TokenUsage) (t : ℤ),
      tc.info = some ti → ti.last_token_usage = some u → u.total_tokens = some t →
      recentBuild (tokenInfoOf (some tc)) = some (jsCompact t)) := by
  refine ⟨?_, rfl, ?_, ?_⟩
  · intro tc h
    simp [recentBuild, tokenInfoOf, h]
  · intro tc ti h
    have hti : tokenInfoOf (some tc) = some ti := by simp [tokenInfoOf, h]
    rw [hti]
    cases hu : ti.last_token_usage with
    | none => simp [recentBuild, hu]
    | some u =>
      cases ht : u.total_tokens with
      | none => simp [recentBuild, hu, ht]
      | some t =>
        simp only [recentBuild, hu, ht, formatCompact]
        intro hc
        exact jsCompact_ne_na t (Option.some.inj hc)
  · intro tc ti u t h hu ht
    have hti : tokenInfoOf (some tc) = some ti := by simp [tokenInfoOf, h]
    rw [hti]
    simp [recentBuild, hu, ht, formatCompact]

/-- A token snapshot carrying a last-usage total of 1234. -/
def snap1234 : EventPayload :=
  { type := some "token_count", info := some { last_token_usage := some { total_tokens := some 1234 } } }

/-- A token snapshot without an `info` object. -/
def snapNoInfo : EventPayload := { type := some "token_count" }

/-- Witness for C5's amended claim: `snap1234` renders the compact count and
`snapNoInfo` renders `"n/a"`. -/
theorem recent_field_na_amended_witness :
    recentBuild (tokenInfoOf (some snap1234)) = some (jsCompact 1234) ∧
      recentBuild (tokenInfoOf (some snapNoInfo)) = some "n/a" :=
  ⟨recent_field_na_amended.2.2.2 snap1234
      { last_token_usage := some { total_tokens := some 1234 } }
      { total_tokens := some 1234 } 1234 rfl rfl rfl,
    recent_field_na_amended.1 snapNoInfo rfl⟩

/-! ## C6: the default composition example -/

set_option maxHeartbeats 1600000 in
/-- C6: with default options, a session whose log mtime is under 5 seconds
old, with no token snapshot, model `gpt-test-model` and cwd `/tmp/project`
(not under the home directory), composes exactly
`🕒now 🔄n/a 🤖test-model 📁tmp/project`. -/
theorem default_composition_example (env : RenderEnv) (mtime : ℤ)
    (h1 : (env.nowMs - mtime).fdiv 1000 < 5)
    (h2 : jsStartsWith "/tmp/project" env.homeDir = false) :
    formatSessionSummary env
      { mtimeMs := mtime,
        lastContext := some { model := some "gpt-test-model", cwd := some "/tmp/project" } }
      {} = "🕒now 🔄n/a 🤖test-model 📁tmp/project" := by
  have hago : formatAgoShort env.nowMs mtime = "now" := by
    unfold formatAgoShort
    rw [if_pos h1]
  have hdir : trimPath env.homeDir "/tmp/project" = "tmp/project" := by
    simp only [trimPath, h2]
    rfl
  set detail : RenderDetail :=
    { mtimeMs := mtime,
      lastContext := some { model := some "gpt-test-model", cwd := some "/tmp/project" } }
    with hdet
  have hbs : buildField env detail {} "sound" = none := rfl
  have hbt : buildField env detail {} "time" = some "now" := by
    have h0 : buildField env detail {} "time" =
        some (formatAgoShort env.nowMs mtime) := rfl
    rw [h0, hago]
  have hba : buildField env detail {} "activity" = none := rfl
  have hbd : buildField env detail {} "daily" = none := rfl
  have hbw : buildField env detail {} "weekly" = none := rfl
  have hbr : buildField env detail {} "recent" = some "n/a" := rfl
  have hbtot : buildField env detail {} "total" = none := rfl
  have hberr : buildField env detail {} "error" = none := rfl
  have hbm : buildField env detail {} "model" = some "test-model" := rfl
  have hbap : buildField env detail {} "approval" = none := rfl
  have hbsx : buildField env detail {} "sandbox" = none := rfl
  have hbdir : buildField env detail {} "directory" = some "tmp/project" := by
    have h0 : buildField env detail {} "directory" =
        (if trimPath env.homeDir "/tmp/project" ≠ ""
          then some (trimPath env.homeDir "/tmp/project") else none) := rfl
    rw [h0, hdir]
    rfl
  have horder : resolveOrder ({} : RenderOptions).formatOrder =
      DEFAULT_FORMAT_ORDER := rfl
  unfold formatSessionSummary
  rw [horder]
  simp only [DEFAULT_FORMAT_ORDER, List.foldl_cons, List.foldl_nil, hbs, hbt,
    hba, hbd, hbw, hbr, hbtot, hberr, hbm, hbap, hbsx, hbdir]
  rfl

set_option maxHeartbeats 1600000 in
/-- Witness for C6 at a concrete clock, mtime and home directory. -/
theorem default_composition_example_witness :
    formatSessionSummary { homeDir := "/root", nowMs := 1000 }
      { mtimeMs := 0,
        lastContext := some { model := some "gpt-test-model", cwd := some "/tmp/project" } }
      {} = "🕒now 🔄n/a 🤖test-model 📁tmp/project" :=
  default_composition_example { homeDir := "/root", nowMs := 1000 } 0
    (by decide) (by decide)

/-! ## Watch Driver sound-trigger logic (`runWatch`'s `draw`) -/

/-- The per-watch sound-trigger state: `lastSeenActivity`,
`lastSeenTimestamp`, `messageCounter`, all starting unset/zero. -/
structure WatchState where
  lastSeenActivity : Option String := none
  lastSeenTimestamp : Option ℤ := none
  messageCounter : ℕ := 0
deriving DecidableEq

/-- The mode dispatch of the sound decision, applied after the last-seen
state has been recorded (the counter increment of `some` mode mutates the
recorded state). -/
def watchDecide (mode : String) (st : WatchState) (a : Option String) :
    WatchState × Bool :=
  if mode = "assistant" then (st, decide (a = some "assistant"))
  else if mode = "some" then
    if a = some "assistant" then (st, true)
    else if a ≠ some "user" then
      let st' := { st with messageCounter := st.messageCounter + 1 }
      (st', decide (st'.messageCounter % 2 = 0 ∨ st'.messageCounter % 3 = 0))
    else (st, false)
  else if mode = "all" then (st, decide (a ≠ some "user"))
  else (st, false)

/-- One refresh of the activity-transition block of `runWatch`'s `draw`
(reached when a fresh gather succeeded, sound is unmuted and a session is
present): the first observation records state without playing; afterwards a
truthy timestamp strictly above the last seen one records the new state and
asks the mode dispatch whether to play. -/
def watchStep (mode : String) (st : WatchState) (a : Option String)
    (t : Option ℤ) : WatchState × Bool :=
  if st.lastSeenActivity = none ∧ st.lastSeenTimestamp = none then
    ({ st with lastSeenActivity := a, lastSeenTimestamp := t }, false)
  else
    match t with
    | some tv =>
      if tv ≠ 0 ∧ tv > st.lastSeenTimestamp.getD 0 then
        watchDecide mode { st with lastSeenActivity := a, lastSeenTimestamp := some tv } a
      else (st, false)
    | none => (st, false)

/-- Fold `watchStep` over a sequence of observed (activity, timestamp)
pairs, collecting the sound requests in order. -/
def runWatchSteps (mode : String) : WatchState → List (Option String × Option ℤ) →
    WatchState × List Bool
  | st, [] => (st, [])
  | st, (a, t) :: rest =>
    let r := watchStep mode st a t
    let f := runWatchSteps mode r.1 rest
    (f.1, r.2 :: f.2)

theorem watchStep_transition (mode : String) (st : WatchState) (a : Option String)
    (tv : ℤ) (hne : ¬(st.lastSeenActivity = none ∧ st.lastSeenTimestamp = none))
    (hcond : tv ≠ 0 ∧ tv > st.lastSeenTimestamp.getD 0) :
    watchStep mode st a (some tv) =
      watchDecide mode { st with lastSeenActivity := a, lastSeenTimestamp := some tv } a := by
  simp only [watchStep]
  rw [if_neg hne, if_pos hcond]

/-- C2: in `some` sound mode, from an unset watch state, a first observation
of `tool` records state silently; then transitions to tool (counter 1),
user, thinking (counter 2), review (counter 3) and assistant — each with a
strictly increasing positive timestamp — request sound exactly on the
thinking and review transitions and unconditionally on the assistant one,
never on the tool or user ones. -/
theorem some_mode_sound_trigger (t0 t1 t2 t3 t4 t5 : ℤ) (h0 : 0 < t0)
    (h01 : t0 < t1) (h12 : t1 < t2) (h23 : t2 < t3) (h34 : t3 < t4) (h45 : t4 < t5) :
    runWatchSteps "some" {}
      [(some "tool", some t0), (some "tool", some t1), (some "user", some t2),
        (some "thinking", some t3), (some "review", some t4),
        (some "assistant", some t5)] =
      ({ lastSeenActivity := some "assistant", lastSeenTimestamp := some t5,
          messageCounter := 3 },
        [false, false, false, true, true, true]) := by
  have e0 : watchStep "some" {} (some "tool") (some t0) =
      ({ lastSeenActivity := some "tool", lastSeenTimestamp := some t0,
          messageCounter := 0 }, false) := rfl
  have e1 : watchStep "some"
      { lastSeenActivity := some "tool", lastSeenTimestamp := some t0, messageCounter := 0 }
      (some "tool") (some t1) =
      ({ lastSeenActivity := some "tool", lastSeenTimestamp := some t1,
          messageCounter := 1 }, false) := by
    rw [watchStep_transition _ _ _ _ (by simp) ⟨by omega, by exact h01⟩]
    simp [watchDecide]
  have e2 : watchStep "some"
      { lastSeenActivity := some "tool", lastSeenTimestamp := some t1, messageCounter := 1 }
      (some "user") (some t2) =
      ({ lastSeenActivity := some "user", lastSeenTimestamp := some t2,
          messageCounter := 1 }, false) := by
    rw [watchStep_transition _ _ _ _ (by simp) ⟨by omega, by exact h12⟩]
    simp [watchDecide]
  have e3 : watchStep "some"
      { lastSeenActivity := some "user", lastSeenTimestamp := some t2, messageCounter := 1 }
      (some "thinking") (some t3) =
      ({ lastSeenActivity := some "thinking", lastSeenTimestamp := some t3,
          messageCounter := 2 }, true) := by
    rw [watchStep_transition _ _ _ _ (by simp) ⟨by omega, by exact h23⟩]
    simp [watchDecide]
  have e4 : watchStep "some"
      { lastSeenActivity := some "thinking", lastSeenTimestamp := some t3, messageCounter := 2 }
      (some "review") (some t4) =
      ({ lastSeenActivity := some "review", lastSeenTimestamp := some t4,
          messageCounter := 3 }, true) := by
    rw [watchStep_transition _ _ _ _ (by simp) ⟨by omega, by exact h34⟩]
    simp [watchDecide]
  have e5 : watchStep "some"
      { lastSeenActivity := some "review", lastSeenTimestamp := some t4, messageCounter := 3 }
      (some "assistant") (some t5) =
      ({ lastSeenActivity := some "assistant", lastSeenTimestamp := some t5,
          messageCounter := 3 }, true) := by
    rw [watchStep_transition _ _ _ _ (by simp) ⟨by omega, by exact h45⟩]
    simp [watchDecide]
  simp only [runWatchSteps, e0, e1, e2, e3, e4, e5]

/-- Witness for C2 at concrete timestamps 1..6. -/
theorem some_mode_sound_trigger_witness :
    runWatchSteps "some" {}
      [(some "tool", some 1), (some "tool", some 2), (some "user", some 3),
        (some "thinking", some 4), (some "review", some 5),
        (some "assistant", some 6)] =
      ({ lastSeenActivity := some "assistant", lastSeenTimestamp := some 6,
          messageCounter := 3 },
        [false, false, false, true, true, true]) :=
  some_mode_sound_trigger 1 2 3 4 5 6 (by norm_num) (by norm_num) (by norm_num)
    (by norm_num) (by norm_num) (by norm_num)

end CodexStatus
